import Mathlib

/-!
Formal model of the run orchestration and checkpoint/resume engine of
`yt-content-analyzer` (shallow embedding of `src/yt_content_analyzer`).

Python dicts are modelled as association lists with the same observable
behaviour (lookup finds the unique binding; assignment replaces an existing
binding in place and appends a new one at the end).  Machine integers are
`Int`/`Nat`, times are `Rat`, fallible code returns `Option`/`Except`.
-/

/-- Lookup in an association-list model of a Python dict (`d.get(k)`). -/
def dictGet {α : Type} (d : List (String × α)) (k : String) : Option α :=
  match d with
  | [] => none
  | (k₁, v) :: rest => if k₁ = k then some v else dictGet rest k

/-- Assignment in an association-list model of a Python dict (`d[k] = v`):
replaces the existing binding in place, or appends a new binding. -/
def dictSet {α : Type} (d : List (String × α)) (k : String) (v : α) :
    List (String × α) :=
  match d with
  | [] => [(k, v)]
  | (k₁, v₁) :: rest =>
      if k₁ = k then (k₁, v) :: rest else (k₁, v₁) :: dictSet rest k v

theorem dictGet_dictSet_self {α : Type} (d : List (String × α)) (k : String)
    (v : α) : dictGet (dictSet d k v) k = some v := by
  induction d with
  | nil => simp [dictGet, dictSet]
  | cons hd tl ih =>
      obtain ⟨k₁, v₁⟩ := hd
      by_cases h : k₁ = k
      · simp [dictGet, dictSet, h]
      · simp [dictGet, dictSet, h, ih]

theorem dictGet_dictSet_ne {α : Type} (d : List (String × α)) (k k₂ : String)
    (v : α) (h : k₂ ≠ k) : dictGet (dictSet d k v) k₂ = dictGet d k₂ := by
  induction d with
  | nil => simp [dictGet, dictSet, Ne.symm h]
  | cons hd tl ih =>
      obtain ⟨k₁, v₁⟩ := hd
      by_cases h₁ : k₁ = k
      · subst h₁
        simp [dictGet, dictSet, Ne.symm h]
      · simp [dictGet, dictSet, h₁, ih]

/-!
## Checkpoint store (`state/checkpoint.py`)

The ledger file's JSON content is `{"UNITS": {unit_key: {stage: status}}}`.
Every file this program writes has the top-level `UNITS` key, so a parseable
file is modelled directly as `LedgerData`.  A file whose bytes cannot be
parsed (`json.JSONDecodeError` / `UnicodeDecodeError`) is `unparsable`.
-/

/-- Parsed content of `state/checkpoint.json`: the `UNITS` mapping from
unit key to a mapping from stage name to status string. -/
structure LedgerData where
  UNITS : List (String × List (String × String))
deriving DecidableEq

/-- Content of a file as seen by `json.loads`: either it parses to a ledger
object, or parsing raises (modelled with the raw bytes kept for the
`.corrupt` backup). -/
inductive FileData where
  | ledger (d : LedgerData)
  | unparsable (bytes : String)
deriving DecidableEq

/-- Filesystem state: a mapping from path to file content. -/
structure FS where
  files : List (String × FileData)
deriving DecidableEq

/-- The `CheckpointStore` dataclass: it holds the ledger file path. -/
structure CheckpointStore where
  path : String

/-- Backup path used by corrupt-ledger recovery:
`path.with_suffix(".json.corrupt")` on a `...json` path appends `.corrupt`. -/
def corruptBackupPath (p : String) : String := p ++ ".corrupt"

/-- Status value of `(unit_key, stage)` in a parsed ledger:
`data.get("UNITS", {}).get(unit_key, {}).get(stage)`. -/
def ledgerStatus (d : LedgerData) (unit_key stage : String) : Option String :=
  match dictGet d.UNITS unit_key with
  | none => none
  | some m => dictGet m stage

/-- The pure core of `CheckpointStore.is_done`: status equals `"DONE"`. -/
def isDoneData (d : LedgerData) (unit_key stage : String) : Bool :=
  decide (ledgerStatus d unit_key stage = some "DONE")

/-- `CheckpointStore.load`: reads and parses the ledger file.  On a parse
error the original bytes are copied to the `.corrupt` sibling and the file
is reinitialized to an empty ledger.  `none` models the uncaught
`FileNotFoundError` when the file is absent. -/
def CheckpointStore.load (st : CheckpointStore) (fs : FS) :
    Option (LedgerData × FS) :=
  match dictGet fs.files st.path with
  | none => none
  | some (.ledger d) => some (d, fs)
  | some (.unparsable b) =>
      let fs₁ : FS := ⟨dictSet fs.files (corruptBackupPath st.path) (.unparsable b)⟩
      let fs₂ : FS := ⟨dictSet fs₁.files st.path (.ledger ⟨[]⟩)⟩
      some (⟨[]⟩, fs₂)

/-- `CheckpointStore.save`: serializes `data` and atomically replaces the
ledger file (temp file + rename), so the path maps to the new content. -/
def CheckpointStore.save (st : CheckpointStore) (fs : FS) (d : LedgerData) :
    FS :=
  ⟨dictSet fs.files st.path (.ledger d)⟩

/-- `CheckpointStore.is_done`: loads the ledger (which may rewrite a corrupt
file) and checks the status of `(unit_key, stage)` against `"DONE"`. -/
def CheckpointStore.is_done (st : CheckpointStore) (fs : FS)
    (unit_key stage : String) : Option (Bool × FS) :=
  (st.load fs).map (fun p => (isDoneData p.1 unit_key stage, p.2))

/-- The in-memory mutation performed by `CheckpointStore.mark`:
`units.setdefault(unit_key, {}); units[unit_key][stage] = status`. -/
def markData (d : LedgerData) (unit_key stage status : String) : LedgerData :=
  let inner := (dictGet d.UNITS unit_key).getD []
  ⟨dictSet d.UNITS unit_key (dictSet inner stage status)⟩

/-- `CheckpointStore.mark`: load, mutate in memory, save. -/
def CheckpointStore.mark (st : CheckpointStore) (fs : FS)
    (unit_key stage : String) (status : String := "DONE") : Option FS :=
  (st.load fs).map (fun p => st.save p.2 (markData p.1 unit_key stage status))

theorem ledgerStatus_markData_self (d : LedgerData) (u s status : String) :
    ledgerStatus (markData d u s status) u s = some status := by
  simp [ledgerStatus, markData, dictGet_dictSet_self]

theorem ledgerStatus_markData_other (d : LedgerData) (u s status u₂ s₂ : String)
    (h : ¬(u₂ = u ∧ s₂ = s)) :
    ledgerStatus (markData d u s status) u₂ s₂ = ledgerStatus d u₂ s₂ := by
  by_cases hu : u₂ = u
  · subst hu
    have hs : s₂ ≠ s := fun hh => h ⟨rfl, hh⟩
    simp only [ledgerStatus, markData, dictGet_dictSet_self]
    cases hUnit : dictGet d.UNITS u₂ with
    | none => simp [hUnit, Option.getD, dictGet_dictSet_ne _ _ _ _ hs, dictGet,
        Ne.symm hs]
    | some m => simp [hUnit, Option.getD, dictGet_dictSet_ne _ _ _ _ hs]
  · simp [ledgerStatus, markData, dictGet_dictSet_ne _ _ _ _ hu]

/-- C10: `mark(unit_key, stage, status)` persists a ledger that maps
`(unit_key, stage)` to `status` while every other `(unit, stage)` entry is
preserved unchanged — `mark` never drops or alters entries for other units
or for other stages of the same unit. -/
theorem mark_frame_preserves_other_entries (st : CheckpointStore) (fs : FS)
    (d : LedgerData) (u s status : String)
    (h : dictGet fs.files st.path = some (.ledger d)) :
    st.mark fs u s status = some (st.save fs (markData d u s status)) ∧
    dictGet (st.save fs (markData d u s status)).files st.path
      = some (.ledger (markData d u s status)) ∧
    ledgerStatus (markData d u s status) u s = some status ∧
    ∀ u₂ s₂ : String, ¬(u₂ = u ∧ s₂ = s) →
      ledgerStatus (markData d u s status) u₂ s₂ = ledgerStatus d u₂ s₂ := by
  refine ⟨?_, ?_, ledgerStatus_markData_self d u s status,
    fun u₂ s₂ hne => ledgerStatus_markData_other d u s status u₂ s₂ hne⟩
  · simp [CheckpointStore.mark, CheckpointStore.load, h]
  · simp [CheckpointStore.save, dictGet_dictSet_self]

/-- Witness for C10 at a concrete ledger: marking `("vidA", "enrich_topics")`
to `FAILED` preserves the pre-existing `("vidB", "transcript_chunk")` entry. -/
theorem mark_frame_preserves_other_entries_witness :
    (CheckpointStore.mk "state/checkpoint.json").mark
        ⟨[("state/checkpoint.json",
           .ledger ⟨[("vidB", [("transcript_chunk", "DONE")])]⟩)]⟩
        "vidA" "enrich_topics" "FAILED"
      = some ((CheckpointStore.mk "state/checkpoint.json").save
          ⟨[("state/checkpoint.json",
             .ledger ⟨[("vidB", [("transcript_chunk", "DONE")])]⟩)]⟩
          (markData ⟨[("vidB", [("transcript_chunk", "DONE")])]⟩
            "vidA" "enrich_topics" "FAILED")) ∧
    ledgerStatus (markData ⟨[("vidB", [("transcript_chunk", "DONE")])]⟩
        "vidA" "enrich_topics" "FAILED") "vidB" "transcript_chunk"
      = ledgerStatus ⟨[("vidB", [("transcript_chunk", "DONE")])]⟩
          "vidB" "transcript_chunk" := by
  have h := mark_frame_preserves_other_entries
    (CheckpointStore.mk "state/checkpoint.json")
    ⟨[("state/checkpoint.json",
       .ledger ⟨[("vidB", [("transcript_chunk", "DONE")])]⟩)]⟩
    ⟨[("vidB", [("transcript_chunk", "DONE")])]⟩
    "vidA" "enrich_topics" "FAILED" rfl
  exact ⟨h.1, h.2.2.2 "vidB" "transcript_chunk" (by decide)⟩

theorem corruptBackupPath_ne (p : String) : p ≠ corruptBackupPath p := by
  intro h
  have hlen := congrArg String.length h
  have h8 : (".corrupt" : String).length = 8 := rfl
  rw [corruptBackupPath, String.length_append, h8] at hlen
  omega

/-- C5: loading an unparsable ledger file returns the empty ledger, leaves a
`.corrupt` sibling backup holding the original bytes, reinitializes the
ledger file, and every subsequent `is_done` call answers `false` for every
unit and stage (until a new `mark` is made). -/
theorem checkpoint_corrupt_recovery (st : CheckpointStore) (fs : FS)
    (b u s : String) (h : dictGet fs.files st.path = some (.unparsable b)) :
    ∃ fs₂ : FS, st.load fs = some (⟨[]⟩, fs₂) ∧
      dictGet fs₂.files (corruptBackupPath st.path) = some (.unparsable b) ∧
      dictGet fs₂.files st.path = some (.ledger ⟨[]⟩) ∧
      st.is_done fs₂ u s = some (false, fs₂) := by
  refine ⟨⟨dictSet (dictSet fs.files (corruptBackupPath st.path)
      (.unparsable b)) st.path (.ledger ⟨[]⟩)⟩, ?_, ?_, ?_, ?_⟩
  · simp [CheckpointStore.load, h]
  · rw [dictGet_dictSet_ne _ _ _ _ (corruptBackupPath_ne st.path).symm]
    exact dictGet_dictSet_self _ _ _
  · exact dictGet_dictSet_self _ _ _
  · simp [CheckpointStore.is_done, CheckpointStore.load,
      dictGet_dictSet_self, isDoneData, ledgerStatus, dictGet]

/-- Witness for C5: a checkpoint file with unparsable bytes is recovered and
`is_done "u1" "transcript_chunk"` then answers `false`. -/
theorem checkpoint_corrupt_recovery_witness :
    ∃ fs₂ : FS,
      (CheckpointStore.mk "state/checkpoint.json").load
          ⟨[("state/checkpoint.json", .unparsable "garbage-bytes")]⟩
        = some (⟨[]⟩, fs₂) ∧
      dictGet fs₂.files (corruptBackupPath "state/checkpoint.json")
        = some (.unparsable "garbage-bytes") ∧
      dictGet fs₂.files "state/checkpoint.json" = some (.ledger ⟨[]⟩) ∧
      (CheckpointStore.mk "state/checkpoint.json").is_done fs₂
          "u1" "transcript_chunk" = some (false, fs₂) :=
  checkpoint_corrupt_recovery (CheckpointStore.mk "state/checkpoint.json")
    ⟨[("state/checkpoint.json", .unparsable "garbage-bytes")]⟩
    "garbage-bytes" "u1" "transcript_chunk" rfl

/-!
## Comment aggregation and dedup (`run.py`, `_collect_and_process_comments`,
lines 374-394)

Normalized comment records (schema produced by `normalize_comments`):
only the fields the dedup loop observes are needed beyond identification.
-/

/-- A normalized comment record; `COMMENT_ID` is `comment.get("id", "")`,
so a missing identifier appears as the empty string. -/
structure NComment where
  VIDEO_ID : String
  COMMENT_ID : String
  TEXT : String
  SORT_MODE : String
deriving DecidableEq

/-- The dedup loop of `_collect_and_process_comments`: `seen_ids` is the
set of already-kept non-empty identifiers; a comment with a fresh non-empty
id is kept and its id remembered; a comment with an empty id is always
kept; a comment whose id was seen is dropped. -/
def dedupCommentsAux (seen : List String) : List NComment → List NComment
  | [] => []
  | c :: rest =>
      if c.COMMENT_ID ≠ "" ∧ c.COMMENT_ID ∉ seen then
        c :: dedupCommentsAux (c.COMMENT_ID :: seen) rest
      else if c.COMMENT_ID = "" then
        c :: dedupCommentsAux seen rest
      else
        dedupCommentsAux seen rest

/-- Deduplicate the aggregate comment list by `COMMENT_ID`, keeping the
first occurrence (`seen_ids = set(); deduped = []; ...`). -/
def dedupComments (cs : List NComment) : List NComment :=
  dedupCommentsAux [] cs

theorem dedupCommentsAux_filter_ne (seen : List String) (cs : List NComment)
    (id : String) (hid : id ≠ "") :
    (dedupCommentsAux seen cs).filter (fun c => c.COMMENT_ID == id)
      = if id ∈ seen then []
        else (cs.filter (fun c => c.COMMENT_ID == id)).take 1 := by
  induction cs generalizing seen with
  | nil => simp [dedupCommentsAux]
  | cons c rest ih =>
      by_cases hcemp : c.COMMENT_ID = ""
      · have hbranch : ¬(c.COMMENT_ID ≠ "" ∧ c.COMMENT_ID ∉ seen) := by
          simp [hcemp]
        have hpc : (c.COMMENT_ID == id) = false := by
          simp [hcemp, Ne.symm hid]
        simp only [dedupCommentsAux, if_neg hbranch, if_pos hcemp,
          List.filter_cons, hpc, Bool.false_eq_true, if_false]
        exact ih seen
      · by_cases hseen : c.COMMENT_ID ∈ seen
        · have hbranch : ¬(c.COMMENT_ID ≠ "" ∧ c.COMMENT_ID ∉ seen) := by
            simp [hseen]
          simp only [dedupCommentsAux, if_neg hbranch, if_neg hcemp]
          rw [ih seen]
          by_cases hc : c.COMMENT_ID = id
          · have hidseen : id ∈ seen := hc ▸ hseen
            simp [hidseen]
          · have hpc : (c.COMMENT_ID == id) = false := by simp [hc]
            simp [List.filter_cons, hpc]
        · have hbranch : c.COMMENT_ID ≠ "" ∧ c.COMMENT_ID ∉ seen :=
            ⟨hcemp, hseen⟩
          simp only [dedupCommentsAux, if_pos hbranch]
          by_cases hc : c.COMMENT_ID = id
          · have hpc : (c.COMMENT_ID == id) = true := by simp [hc]
            have hidseen : id ∉ seen := hc ▸ hseen
            simp only [List.filter_cons, hpc, if_true]
            rw [ih (c.COMMENT_ID :: seen)]
            simp [hc, hidseen]
          · have hpc : (c.COMMENT_ID == id) = false := by simp [hc]
            simp only [List.filter_cons, hpc, Bool.false_eq_true, if_false]
            rw [ih (c.COMMENT_ID :: seen)]
            have hne : ¬id = c.COMMENT_ID := fun hh => hc hh.symm
            have hmem : (id ∈ c.COMMENT_ID :: seen) ↔ (id ∈ seen) := by
              simp [List.mem_cons, hne]
            rw [if_congr hmem rfl rfl]

theorem dedupCommentsAux_filter_empty (seen : List String)
    (cs : List NComment) :
    (dedupCommentsAux seen cs).filter (fun c => c.COMMENT_ID == "")
      = cs.filter (fun c => c.COMMENT_ID == "") := by
  induction cs generalizing seen with
  | nil => simp [dedupCommentsAux]
  | cons c rest ih =>
      by_cases hcemp : c.COMMENT_ID = ""
      · have hbranch : ¬(c.COMMENT_ID ≠ "" ∧ c.COMMENT_ID ∉ seen) := by
          simp [hcemp]
        have hpc : (c.COMMENT_ID == "") = true := by simp [hcemp]
        simp only [dedupCommentsAux, if_neg hbranch, if_pos hcemp,
          List.filter_cons, hpc, if_true]
        rw [ih seen]
      · have hpc : (c.COMMENT_ID == "") = false := by simp [hcemp]
        by_cases hseen : c.COMMENT_ID ∈ seen
        · have hbranch : ¬(c.COMMENT_ID ≠ "" ∧ c.COMMENT_ID ∉ seen) := by
            simp [hseen]
          simp only [dedupCommentsAux, if_neg hbranch, if_neg hcemp,
            List.filter_cons, hpc, Bool.false_eq_true, if_false]
          exact ih seen
        · have hbranch : c.COMMENT_ID ≠ "" ∧ c.COMMENT_ID ∉ seen :=
            ⟨hcemp, hseen⟩
          simp only [dedupCommentsAux, if_pos hbranch, List.filter_cons, hpc,
            Bool.false_eq_true, if_false]
          exact ih (c.COMMENT_ID :: seen)

/-- C6: aggregating normalized comments across sort modes in configured
mode order (`modeLists.flatten`) and deduplicating, each non-empty identifier
survives exactly once — as the first occurrence of that identifier in mode
order (`filter = take 1 of filter`) — while comments with an empty or
missing identifier are all retained, never deduplicated. -/
theorem comments_dedup_law (modeLists : List (List NComment)) (id : String)
    (hid : id ≠ "") :
    (dedupComments modeLists.flatten).filter (fun c => c.COMMENT_ID == id)
        = ((modeLists.flatten).filter (fun c => c.COMMENT_ID == id)).take 1 ∧
    (dedupComments modeLists.flatten).filter (fun c => c.COMMENT_ID == "")
        = (modeLists.flatten).filter (fun c => c.COMMENT_ID == "") := by
  constructor
  · rw [dedupComments, dedupCommentsAux_filter_ne [] _ id hid]
    simp
  · exact dedupCommentsAux_filter_empty [] _

/-- Witness for C6: identifier `"c1"` surfaces in both sort modes; the
deduplicated aggregate keeps the `top`-mode copy only, and both id-less
comments survive. -/
theorem comments_dedup_law_witness :
    (dedupComments ([[⟨"v", "c1", "hello", "top"⟩, ⟨"v", "", "anon1", "top"⟩],
          [⟨"v", "c1", "hello again", "newest"⟩,
           ⟨"v", "", "anon2", "newest"⟩]] : List (List NComment)).flatten).filter
        (fun c => c.COMMENT_ID == "c1")
      = (([[⟨"v", "c1", "hello", "top"⟩, ⟨"v", "", "anon1", "top"⟩],
          [⟨"v", "c1", "hello again", "newest"⟩,
           ⟨"v", "", "anon2", "newest"⟩]] : List (List NComment)).flatten.filter
          (fun c => c.COMMENT_ID == "c1")).take 1 ∧
    (dedupComments ([[⟨"v", "c1", "hello", "top"⟩, ⟨"v", "", "anon1", "top"⟩],
          [⟨"v", "c1", "hello again", "newest"⟩,
           ⟨"v", "", "anon2", "newest"⟩]] : List (List NComment)).flatten).filter
        (fun c => c.COMMENT_ID == "")
      = ([[⟨"v", "c1", "hello", "top"⟩, ⟨"v", "", "anon1", "top"⟩],
          [⟨"v", "c1", "hello again", "newest"⟩,
           ⟨"v", "", "anon2", "newest"⟩]] : List (List NComment)).flatten.filter
          (fun c => c.COMMENT_ID == "") :=
  comments_dedup_law _ "c1" (by decide)

/-!
## Failure records (`utils/io.py`, `write_failure`, lines 60-80)

A failures directory is modelled as a mapping from filename to the JSON
record stored in it.  `traceback` and `timestamp` are environment inputs
(wall clock, interpreter state) and are passed in explicitly.
-/

/-- Classification of a caught exception: `type(error).__name__` and
`str(error)`. -/
structure ErrorInfo where
  error_type : String
  error_message : String
deriving DecidableEq

/-- The JSON object written for one failed stage attempt. -/
structure FailureRecord where
  stage : String
  video_id : String
  error_type : String
  error_message : String
  traceback : List String
  timestamp : String
deriving DecidableEq

/-- `re.sub(r"[^\w\-]", "_", video_id)`: every character that is not
alphanumeric, underscore or hyphen is replaced by an underscore (ASCII
reading of `\w`). -/
def sanitizeId (video_id : String) : String :=
  String.map
    (fun c => if c.isAlphanum || c = '_' || c = '-' then c else '_') video_id

/-- Failure record filename: `f"{stage}_{safe_id}.json"` — a deterministic
name per `(stage, video_id)` pair, with no attempt counter or timestamp. -/
def failureFileName (stage video_id : String) : String :=
  stage ++ "_" ++ sanitizeId video_id ++ ".json"

/-- The record dict built by `write_failure`. -/
def mkFailureRecord (stage video_id : String) (e : ErrorInfo)
    (trace : List String) (timestamp : String) : FailureRecord :=
  ⟨stage, video_id, e.error_type, e.error_message, trace, timestamp⟩

/-- `write_failure`: `path.write_text(...)` stores the record at the
deterministic filename, creating or replacing that file. -/
def write_failure (failures_dir : List (String × FailureRecord))
    (stage video_id : String) (e : ErrorInfo) (trace : List String)
    (timestamp : String) : List (String × FailureRecord) :=
  dictSet failures_dir (failureFileName stage video_id)
    (mkFailureRecord stage video_id e trace timestamp)

/-- Counterexample to C3: two successive failed attempts for the same
`(stage, unit)` pair write to the same filename, and the second call
replaces the first record — the previously written failure record is
overwritten, so the failures directory is not an append log. -/
theorem failures_append_log_cex :
    write_failure [] "transcript" "vid00000001"
        ⟨"CollectionError", "first attempt"⟩ [] "2026-01-01T00:00:00Z"
      = [(failureFileName "transcript" "vid00000001",
          mkFailureRecord "transcript" "vid00000001"
            ⟨"CollectionError", "first attempt"⟩ [] "2026-01-01T00:00:00Z")] ∧
    write_failure
        (write_failure [] "transcript" "vid00000001"
          ⟨"CollectionError", "first attempt"⟩ [] "2026-01-01T00:00:00Z")
        "transcript" "vid00000001"
        ⟨"CollectionError", "second attempt"⟩ [] "2026-01-01T00:05:00Z"
      = [(failureFileName "transcript" "vid00000001",
          mkFailureRecord "transcript" "vid00000001"
            ⟨"CollectionError", "second attempt"⟩ [] "2026-01-01T00:05:00Z")] ∧
    mkFailureRecord "transcript" "vid00000001"
        ⟨"CollectionError", "second attempt"⟩ [] "2026-01-01T00:05:00Z"
      ≠ mkFailureRecord "transcript" "vid00000001"
          ⟨"CollectionError", "first attempt"⟩ [] "2026-01-01T00:00:00Z" := by
  refine ⟨rfl, by simp [write_failure, dictSet], by decide⟩

/-- C3 amended: each `(stage, unit)` pair owns a single failure-record file
at a deterministic path; a later failed attempt for the same pair
overwrites the prior record, while every other filename in the failures
directory is left unchanged — a current-state file per pair, not an
append log. -/
theorem write_failure_overwrites_same_slot
    (failures_dir : List (String × FailureRecord)) (stage video_id : String)
    (e : ErrorInfo) (trace : List String) (timestamp : String) :
    dictGet (write_failure failures_dir stage video_id e trace timestamp)
        (failureFileName stage video_id)
      = some (mkFailureRecord stage video_id e trace timestamp) ∧
    ∀ name : String, name ≠ failureFileName stage video_id →
      dictGet (write_failure failures_dir stage video_id e trace timestamp)
          name
        = dictGet failures_dir name := by
  exact ⟨dictGet_dictSet_self _ _ _,
    fun name hne => dictGet_dictSet_ne _ _ _ _ hne⟩

/-- Witness for the amended C3: overwriting the `("transcript", "v1")` slot
leaves the `("comments", "v1")` record untouched. -/
theorem write_failure_overwrites_same_slot_witness :
    dictGet (write_failure
        [(failureFileName "comments" "v1",
          mkFailureRecord "comments" "v1" ⟨"E", "m"⟩ [] "t")]
        "transcript" "v1" ⟨"E2", "m2"⟩ [] "t2")
        (failureFileName "transcript" "v1")
      = some (mkFailureRecord "transcript" "v1" ⟨"E2", "m2"⟩ [] "t2") ∧
    dictGet (write_failure
        [(failureFileName "comments" "v1",
          mkFailureRecord "comments" "v1" ⟨"E", "m"⟩ [] "t")]
        "transcript" "v1" ⟨"E2", "m2"⟩ [] "t2")
        (failureFileName "comments" "v1")
      = dictGet
          [(failureFileName "comments" "v1",
            mkFailureRecord "comments" "v1" ⟨"E", "m"⟩ [] "t")]
          (failureFileName "comments" "v1") := by
  have h := write_failure_overwrites_same_slot
    [(failureFileName "comments" "v1",
      mkFailureRecord "comments" "v1" ⟨"E", "m"⟩ [] "t")]
    "transcript" "v1" ⟨"E2", "m2"⟩ [] "t2"
  exact ⟨h.1, h.2 (failureFileName "comments" "v1") (by decide)⟩

/-!
## Video list builder, search mode (`run.py`, `_build_video_list`,
lines 91-121)

Per-term resolver results are inputs (the resolver is an external
collaborator); the builder concatenates them in term order, deduplicates by
`VIDEO_ID` keeping the first occurrence, truncates to `MAX_TOTAL_VIDEOS`,
and writes the discovery manifest only when the final list is non-empty
(`if search_videos:`).  The manifest is modelled as the `Option` second
component (`none` = no file written).
-/

/-- A discovered video entry. -/
structure VideoEntry where
  VIDEO_URL : String
  VIDEO_ID : String
  TITLE : String
deriving DecidableEq

/-- The dedup loop of the search branch: keep a video whose `VIDEO_ID` was
not seen yet, remember its id; drop repeats. -/
def dedupVideosAux (seen : List String) : List VideoEntry → List VideoEntry
  | [] => []
  | v :: rest =>
      if v.VIDEO_ID ∈ seen then dedupVideosAux seen rest
      else v :: dedupVideosAux (v.VIDEO_ID :: seen) rest

/-- The search branch of `_build_video_list`: concatenate per-term results
in term order, dedup by `VIDEO_ID` (first occurrence wins), truncate to
`MAX_TOTAL_VIDEOS` (non-negative slice), write the manifest iff non-empty,
and return the final list. -/
def buildVideoListSearch (termResults : List (List VideoEntry))
    (maxTotal : ℕ) : List VideoEntry × Option (List VideoEntry) :=
  let search_videos := termResults.flatten
  let deduped := dedupVideosAux [] search_videos
  let final := deduped.take maxTotal
  (final, if final = [] then none else some final)

theorem dedupVideosAux_filter (seen : List String) (l : List VideoEntry)
    (id : String) :
    (dedupVideosAux seen l).filter (fun v => v.VIDEO_ID == id)
      = if id ∈ seen then []
        else (l.filter (fun v => v.VIDEO_ID == id)).take 1 := by
  induction l generalizing seen with
  | nil => simp [dedupVideosAux]
  | cons v rest ih =>
      by_cases hseen : v.VIDEO_ID ∈ seen
      · simp only [dedupVideosAux, if_pos hseen]
        rw [ih seen]
        by_cases hv : v.VIDEO_ID = id
        · have hidseen : id ∈ seen := hv ▸ hseen
          simp [hidseen]
        · have hpv : (v.VIDEO_ID == id) = false := by simp [hv]
          simp [List.filter_cons, hpv]
      · simp only [dedupVideosAux, if_neg hseen]
        by_cases hv : v.VIDEO_ID = id
        · have hpv : (v.VIDEO_ID == id) = true := by simp [hv]
          have hidseen : id ∉ seen := hv ▸ hseen
          simp only [List.filter_cons, hpv, if_true]
          rw [ih (v.VIDEO_ID :: seen)]
          simp [hv, hidseen]
        · have hpv : (v.VIDEO_ID == id) = false := by simp [hv]
          simp only [List.filter_cons, hpv, Bool.false_eq_true, if_false]
          rw [ih (v.VIDEO_ID :: seen)]
          have hne : ¬id = v.VIDEO_ID := fun hh => hv hh.symm
          have hmem : (id ∈ v.VIDEO_ID :: seen) ↔ (id ∈ seen) := by
            simp [List.mem_cons, hne]
          rw [if_congr hmem rfl rfl]

/-- Counterexample to C9: (a) when every term resolves to nothing, the
builder returns without writing any discovery manifest (the write is
guarded by `if search_videos:`); (b) with a global maximum of 1, video id
`"dup1234567"` surfaced by two terms appears zero times — not exactly
once — in the returned list and manifest, because truncation follows
deduplication. -/
theorem video_list_search_cex :
    buildVideoListSearch [[]] 500 = ([], none) ∧
    buildVideoListSearch
        [[⟨"https://youtu.be/idAAAAAAAA", "idAAAAAAAA", ""⟩,
          ⟨"https://youtu.be/dup1234567", "dup1234567", ""⟩],
         [⟨"https://youtu.be/dup1234567", "dup1234567", ""⟩]] 1
      = ([⟨"https://youtu.be/idAAAAAAAA", "idAAAAAAAA", ""⟩],
         some [⟨"https://youtu.be/idAAAAAAAA", "idAAAAAAAA", ""⟩]) ∧
    (((buildVideoListSearch
        [[⟨"https://youtu.be/idAAAAAAAA", "idAAAAAAAA", ""⟩,
          ⟨"https://youtu.be/dup1234567", "dup1234567", ""⟩],
         [⟨"https://youtu.be/dup1234567", "dup1234567", ""⟩]] 1).1.filter
        (fun v => v.VIDEO_ID == "dup1234567")).length = 0) := by
  refine ⟨by decide, by decide, by decide⟩

/-- C9 amended: the search-mode builder concatenates per-term results in
term order, deduplicates by video id keeping the first occurrence, then
truncates to the global maximum; the manifest is written (with exactly the
returned list) whenever that list is non-empty.  A video id surfaced by
several terms appears at most once, and exactly once (as its first
occurrence) whenever the deduplicated list fits within the global
maximum. -/
theorem video_list_search_dedup (termResults : List (List VideoEntry))
    (maxTotal : ℕ) (id : String) :
    (buildVideoListSearch termResults maxTotal).1
        = (dedupVideosAux [] termResults.flatten).take maxTotal ∧
    ((buildVideoListSearch termResults maxTotal).1 ≠ [] →
      (buildVideoListSearch termResults maxTotal).2
        = some (buildVideoListSearch termResults maxTotal).1) ∧
    (dedupVideosAux [] termResults.flatten).filter
        (fun v => v.VIDEO_ID == id)
      = (termResults.flatten.filter (fun v => v.VIDEO_ID == id)).take 1 ∧
    ((buildVideoListSearch termResults maxTotal).1.filter
        (fun v => v.VIDEO_ID == id)).length ≤ 1 ∧
    ((dedupVideosAux [] termResults.flatten).length ≤ maxTotal →
      (buildVideoListSearch termResults maxTotal).1.filter
          (fun v => v.VIDEO_ID == id)
        = (termResults.flatten.filter (fun v => v.VIDEO_ID == id)).take 1) := by
  have hdd := dedupVideosAux_filter [] termResults.flatten id
  simp only [List.not_mem_nil, if_false] at hdd
  refine ⟨rfl, ?_, hdd, ?_, ?_⟩
  · intro hne
    simp only [buildVideoListSearch] at hne ⊢
    rw [if_neg hne]
  · have hsub : List.Sublist
        (((dedupVideosAux [] termResults.flatten).take maxTotal).filter
          (fun v => v.VIDEO_ID == id))
        ((dedupVideosAux [] termResults.flatten).filter
          (fun v => v.VIDEO_ID == id)) :=
      List.Sublist.filter _ (List.take_sublist _ _)
    have hlen := hsub.length_le
    rw [hdd] at hlen
    have h1 : ((termResults.flatten.filter
        (fun v => v.VIDEO_ID == id)).take 1).length ≤ 1 := by
      simpa using List.length_take_le 1 _
    exact le_trans hlen h1
  · intro hle
    have : (dedupVideosAux [] termResults.flatten).take maxTotal
        = dedupVideosAux [] termResults.flatten := List.take_of_length_le hle
    simp [buildVideoListSearch, this, hdd]

/-- Witness for the amended C9: with two terms both surfacing `"idA"` and a
large maximum, the manifest is written and `"idA"` appears exactly once. -/
theorem video_list_search_dedup_witness :
    ((buildVideoListSearch
        [[⟨"uA", "idA", ""⟩], [⟨"uA", "idA", ""⟩]] 500).1 ≠ [] →
      (buildVideoListSearch
          [[⟨"uA", "idA", ""⟩], [⟨"uA", "idA", ""⟩]] 500).2
        = some (buildVideoListSearch
            [[⟨"uA", "idA", ""⟩], [⟨"uA", "idA", ""⟩]] 500).1) ∧
    ((dedupVideosAux []
        ([[⟨"uA", "idA", ""⟩], [⟨"uA", "idA", ""⟩]] :
          List (List VideoEntry)).flatten).length ≤ 500 →
      (buildVideoListSearch
          [[⟨"uA", "idA", ""⟩], [⟨"uA", "idA", ""⟩]] 500).1.filter
          (fun v => v.VIDEO_ID == "idA")
        = (([[⟨"uA", "idA", ""⟩], [⟨"uA", "idA", ""⟩]] :
            List (List VideoEntry)).flatten.filter
            (fun v => v.VIDEO_ID == "idA")).take 1) := by
  have h := video_list_search_dedup
    [[⟨"uA", "idA", ""⟩], [⟨"uA", "idA", ""⟩]] 500 "idA"
  exact ⟨h.2.1, h.2.2.2.2⟩

/-!
## Transcript normalization (`parse/normalize_transcripts.py`)

Raw transcript entries come from the external collector; times are exact
rationals.  `round(x, 3)` is modelled as rounding `x * 1000` to the nearest
integer (Python uses banker's rounding at exact half-thousandth ties; no
property proved here depends on tie behaviour, and the configured values
are integers).
-/

/-- Python `round(x, 3)`. -/
def round3 (q : ℚ) : ℚ := ((round (q * 1000) : ℤ) : ℚ) / 1000

/-- One raw transcript entry: `{text, start, duration}`. -/
structure TranscriptEntry where
  text : String
  start : ℚ
  duration : ℚ
deriving DecidableEq

/-- Raw transcript as returned by the collector:
`{entries, source, lang}`. -/
structure RawTranscript where
  entries : List TranscriptEntry
  source : String
  lang : String
deriving DecidableEq

/-- Canonical normalized segment record (schema: VIDEO_ID, SEGMENT_INDEX,
START_S, END_S, TEXT, SPEAKER, SOURCE, LANG). -/
structure Segment where
  VIDEO_ID : String
  SEGMENT_INDEX : ℕ
  START_S : ℚ
  END_S : ℚ
  TEXT : String
  SPEAKER : String
  SOURCE : String
  LANG : String
deriving DecidableEq

/-- The entry loop of `normalize_transcripts`: `i` is the running entry
index, `total_chars` the running character total.  When adding a text would
exceed `max_chars`, the text is cut to the remaining budget (`remaining` is
positive whenever the loop is entered with `total_chars < max_chars`); after
appending, the loop stops as soon as `total_chars >= max_chars`. -/
def normalizeLoop (video_id source lang : String) (max_chars : ℤ) :
    List TranscriptEntry → ℕ → ℤ → List Segment
  | [], _, _ => []
  | e :: rest, i, total_chars =>
      if total_chars + (e.text.length : ℤ) > max_chars then
        let remaining := max_chars - total_chars
        if remaining > 0 then
          let text := e.text.take remaining.toNat
          ⟨video_id, i, round3 e.start, round3 (e.start + e.duration), text,
            "", source, lang⟩ ::
          (if total_chars + (text.length : ℤ) ≥ max_chars then []
           else normalizeLoop video_id source lang max_chars rest (i + 1)
              (total_chars + (text.length : ℤ)))
        else []
      else
        ⟨video_id, i, round3 e.start, round3 (e.start + e.duration), e.text,
          "", source, lang⟩ ::
        (if total_chars + (e.text.length : ℤ) ≥ max_chars then []
         else normalizeLoop video_id source lang max_chars rest (i + 1)
            (total_chars + (e.text.length : ℤ)))

/-- `normalize_transcripts(raw_transcript, video_id, cfg)` with
`max_chars = cfg.MAX_TRANSCRIPT_CHARS_PER_VIDEO`. -/
def normalize_transcripts (raw : RawTranscript) (video_id : String)
    (max_chars : ℤ) : List Segment :=
  normalizeLoop video_id raw.source raw.lang max_chars raw.entries 0 0

/-- Total number of TEXT characters across a list of segments. -/
def totalTextChars : List Segment → ℤ
  | [] => 0
  | s :: rest => (s.TEXT.length : ℤ) + totalTextChars rest

theorem string_length_take (s : String) (n : ℕ) :
    (s.take n).length = min n s.length := by
  rw [String.take_eq]
  show (s.1.take n).length = min n s.1.length
  exact List.length_take n s.1

theorem normalizeLoop_spec (vid src lang : String) (max_chars : ℤ)
    (entries : List TranscriptEntry) :
    ∀ (i : ℕ) (total : ℤ), total < max_chars →
    total + totalTextChars (normalizeLoop vid src lang max_chars entries i total)
        ≤ max_chars ∧
    (normalizeLoop vid src lang max_chars entries i total).length
        ≤ entries.length ∧
    (∀ j (hj : j < (normalizeLoop vid src lang max_chars entries i total).length)
       (hj2 : j < entries.length),
       ((normalizeLoop vid src lang max_chars entries i total).get ⟨j, hj⟩).TEXT
           ≠ (entries.get ⟨j, hj2⟩).text →
       ((normalizeLoop vid src lang max_chars entries i total).get ⟨j, hj⟩).TEXT
           = (entries.get ⟨j, hj2⟩).text.take
               (max_chars - (total + totalTextChars
                 ((normalizeLoop vid src lang max_chars entries i total).take
                   j))).toNat ∧
       (normalizeLoop vid src lang max_chars entries i total).length = j + 1 ∧
       total + totalTextChars
           (normalizeLoop vid src lang max_chars entries i total)
         = max_chars) := by
  induction entries with
  | nil =>
      intro i total h
      refine ⟨by simp [normalizeLoop, totalTextChars]; omega,
        by simp [normalizeLoop], ?_⟩
      intro j hj
      simp [normalizeLoop] at hj
  | cons e rest ih =>
      intro i total h
      by_cases hover : total + (e.text.length : ℤ) > max_chars
      · have hlenle : (max_chars - total).toNat ≤ e.text.length := by omega
        have htext :
            ((e.text.take (max_chars - total).toNat).length : ℤ)
              = max_chars - total := by
          rw [string_length_take, min_eq_left hlenle]
          omega
        have hrem : max_chars - total > 0 := by omega
        have hbreak : total
            + ((e.text.take (max_chars - total).toNat).length : ℤ)
            ≥ max_chars := by omega
        have hout : normalizeLoop vid src lang max_chars (e :: rest) i total
            = [⟨vid, i, round3 e.start, round3 (e.start + e.duration),
                e.text.take (max_chars - total).toNat, "", src, lang⟩] := by
          simp only [normalizeLoop, if_pos hover, if_pos hrem, if_pos hbreak]
        rw [hout]
        refine ⟨?_, by simp, ?_⟩
        · simp only [totalTextChars]
          omega
        · intro j hj hj2 hne
          match j, hj with
          | 0, _ =>
              refine ⟨by simp [totalTextChars], rfl, ?_⟩
              simp only [totalTextChars]
              omega
          | j + 1, hj => simp at hj
      · by_cases hstop : total + (e.text.length : ℤ) ≥ max_chars
        · have hout : normalizeLoop vid src lang max_chars (e :: rest) i total
              = [⟨vid, i, round3 e.start, round3 (e.start + e.duration),
                  e.text, "", src, lang⟩] := by
            simp only [normalizeLoop, if_neg hover, if_pos hstop]
          rw [hout]
          refine ⟨?_, by simp, ?_⟩
          · simp only [totalTextChars]
            omega
          · intro j hj hj2 hne
            match j, hj, hj2, hne with
            | 0, _, _, hne => exact absurd rfl hne
            | j + 1, hj, _, _ => simp at hj
        · have h2 : total + (e.text.length : ℤ) < max_chars := by omega
          obtain ⟨iha, ihb, ihc⟩ := ih (i + 1) (total + (e.text.length : ℤ)) h2
          have hout : normalizeLoop vid src lang max_chars (e :: rest) i total
              = ⟨vid, i, round3 e.start, round3 (e.start + e.duration),
                  e.text, "", src, lang⟩ ::
                normalizeLoop vid src lang max_chars rest (i + 1)
                  (total + (e.text.length : ℤ)) := by
            simp only [normalizeLoop, if_neg hover, if_neg hstop]
          rw [hout]
          refine ⟨?_, ?_, ?_⟩
          · simp only [totalTextChars]
            omega
          · simp only [List.length_cons]
            omega
          · intro j hj hj2 hne
            match j, hj, hj2, hne with
            | 0, _, _, hne => exact absurd rfl hne
            | j + 1, hj, hj2, hne =>
                simp only [List.length_cons, Nat.add_lt_add_iff_right]
                  at hj hj2
                have hne2 : ((normalizeLoop vid src lang max_chars rest (i + 1)
                      (total + (e.text.length : ℤ))).get ⟨j, hj⟩).TEXT
                    ≠ (rest.get ⟨j, hj2⟩).text := by
                  simpa [List.get_cons_succ] using hne
                obtain ⟨hc1, hc2, hc3⟩ := ihc j hj hj2 hne2
                refine ⟨?_, ?_, ?_⟩
                · simp only [List.get_cons_succ, List.take_succ_cons,
                    totalTextChars]
                  have harg : max_chars - (total + ((e.text.length : ℤ)
                      + totalTextChars ((normalizeLoop vid src lang max_chars
                        rest (i + 1) (total + (e.text.length : ℤ))).take j)))
                      = max_chars - (total + (e.text.length : ℤ)
                        + totalTextChars ((normalizeLoop vid src lang max_chars
                          rest (i + 1) (total + (e.text.length : ℤ))).take
                            j)) := by
                    ring
                  rw [harg]
                  exact hc1
                · simp only [List.length_cons, hc2]
                · simp only [totalTextChars]
                  omega

/-- C8: for a positive character budget, `normalize_transcripts` emits
segments whose total TEXT character count never exceeds the per-video
budget; whenever an emitted segment's text differs from its entry's text
(a mid-segment truncation), that text is exactly the entry text cut to the
remaining budget, the total hits the budget exactly, and no further
segments are emitted. -/
theorem transcript_char_budget (raw : RawTranscript) (video_id : String)
    (max_chars : ℤ) (hpos : 0 < max_chars) :
    totalTextChars (normalize_transcripts raw video_id max_chars)
        ≤ max_chars ∧
    (normalize_transcripts raw video_id max_chars).length
        ≤ raw.entries.length ∧
    (∀ j (hj : j < (normalize_transcripts raw video_id max_chars).length)
       (hj2 : j < raw.entries.length),
       ((normalize_transcripts raw video_id max_chars).get ⟨j, hj⟩).TEXT
           ≠ (raw.entries.get ⟨j, hj2⟩).text →
       ((normalize_transcripts raw video_id max_chars).get ⟨j, hj⟩).TEXT
           = (raw.entries.get ⟨j, hj2⟩).text.take
               (max_chars - totalTextChars
                 ((normalize_transcripts raw video_id max_chars).take
                   j)).toNat ∧
       (normalize_transcripts raw video_id max_chars).length = j + 1 ∧
       totalTextChars (normalize_transcripts raw video_id max_chars)
         = max_chars) := by
  have h := normalizeLoop_spec video_id raw.source raw.lang max_chars
    raw.entries 0 0 hpos
  simpa only [normalize_transcripts, zero_add] using h

/-- Witness for C8: entries `"hello"`, `"world"`, `"zzz"` with budget 7
yield `["hello", "wo"]` — the second segment is truncated to the remaining
2 characters, the total is exactly 7, and the third entry is dropped. -/
theorem transcript_char_budget_witness :
    totalTextChars (normalize_transcripts
        ⟨[⟨"hello", 0, 2⟩, ⟨"world", 2, 2⟩, ⟨"zzz", 4, 1⟩], "auto", "en"⟩
        "vid" 7) ≤ 7 ∧
    (normalize_transcripts
        ⟨[⟨"hello", 0, 2⟩, ⟨"world", 2, 2⟩, ⟨"zzz", 4, 1⟩], "auto", "en"⟩
        "vid" 7).length = 1 + 1 ∧
    totalTextChars (normalize_transcripts
        ⟨[⟨"hello", 0, 2⟩, ⟨"world", 2, 2⟩, ⟨"zzz", 4, 1⟩], "auto", "en"⟩
        "vid" 7) = 7 ∧
    (normalize_transcripts
        ⟨[⟨"hello", 0, 2⟩, ⟨"world", 2, 2⟩, ⟨"zzz", 4, 1⟩], "auto", "en"⟩
        "vid" 7).map Segment.TEXT = ["hello", "wo"] := by
  have h := transcript_char_budget
    ⟨[⟨"hello", 0, 2⟩, ⟨"world", 2, 2⟩, ⟨"zzz", 4, 1⟩], "auto", "en"⟩
    "vid" 7 (by decide)
  have h2 := h.2.2 1 (by decide) (by decide) (by decide)
  exact ⟨h.1, h2.2.1, h2.2.2, by decide⟩

/-!
## Transcript chunking (`parse/chunk_transcripts.py`)

`window_s = cfg.TRANSCRIPT_CHUNK_SECONDS` and
`overlap_s = cfg.TRANSCRIPT_CHUNK_OVERLAP_SECONDS` are integers in the
configuration.  The `while chunk_start < max_end` loop is modelled by
well-founded recursion on the number of remaining steps; when the effective
step is non-positive (only possible when the window itself is
non-positive, after the fallback) the Python loop never terminates, and the
model returns `[]` for that unreachable configuration.
-/

/-- Canonical chunk record (schema: VIDEO_ID, CHUNK_INDEX, START_S, END_S,
TEXT, SEGMENT_INDICES, OVERLAP_S). -/
structure Chunk where
  VIDEO_ID : String
  CHUNK_INDEX : ℕ
  START_S : ℚ
  END_S : ℚ
  TEXT : String
  SEGMENT_INDICES : List ℕ
  OVERLAP_S : ℚ
deriving DecidableEq

/-- The window loop of `chunk_transcripts`: a window `[chunk_start,
chunk_start + window_s)` collects every segment that starts before the
window's end and ends after the window's start; a chunk is appended (and
the chunk index advanced) only when the window is non-empty; the start then
advances by `step`. -/
def chunkLoop (segments : List Segment) (video_id : String)
    (window_s overlap_s : ℤ) (max_end : ℚ) (step : ℤ) (hstep : 0 < step)
    (chunk_start : ℚ) (chunk_index : ℕ) : List Chunk :=
  if h : chunk_start < max_end then
    let chunk_end : ℚ := chunk_start + (window_s : ℚ)
    let included := segments.filter (fun seg =>
      decide (seg.START_S < chunk_end) && decide (chunk_start < seg.END_S))
    let texts := included.map Segment.TEXT
    if texts.isEmpty then
      chunkLoop segments video_id window_s overlap_s max_end step hstep
        (chunk_start + (step : ℚ)) chunk_index
    else
      ⟨video_id, chunk_index, round3 chunk_start,
        round3 (min chunk_end max_end), String.intercalate " " texts,
        included.map Segment.SEGMENT_INDEX,
        round3 (if chunk_index > 0 then (overlap_s : ℚ) else 0)⟩ ::
      chunkLoop segments video_id window_s overlap_s max_end step hstep
        (chunk_start + (step : ℚ)) (chunk_index + 1)
  else []
termination_by (⌈(max_end - chunk_start) / (step : ℚ)⌉).toNat
decreasing_by
  all_goals
    have hstepQ : (0:ℚ) < (step:ℚ) := by exact_mod_cast hstep
    have hx : (0:ℚ) < (max_end - chunk_start) / (step:ℚ) :=
      div_pos (by linarith) hstepQ
    have hceil : 0 < ⌈(max_end - chunk_start) / (step:ℚ)⌉ :=
      Int.ceil_pos.mpr hx
    have heq : (max_end - (chunk_start + (step:ℚ))) / (step:ℚ)
        = (max_end - chunk_start) / (step:ℚ) - 1 := by
      field_simp
      ring
    rw [heq, Int.ceil_sub_one]
    omega

/-- `chunk_transcripts(segments, cfg)`: empty input gives no chunks; the
time range runs from the first segment's `START_S` to the maximum `END_S`;
`step = window - overlap`, falling back (with a warning) to
non-overlapping chunks (`step = window`, recorded overlap `0`) when
`overlap >= window`. -/
def chunk_transcripts (segments : List Segment) (window_s overlap_s : ℤ) :
    List Chunk :=
  match segments with
  | [] => []
  | s0 :: rest =>
      let max_end : ℚ := (rest.map Segment.END_S).foldl max s0.END_S
      let step0 : ℤ := window_s - overlap_s
      let step : ℤ := if step0 ≤ 0 then window_s else step0
      let ov : ℤ := if step0 ≤ 0 then 0 else overlap_s
      if hstep : 0 < step then
        chunkLoop (s0 :: rest) s0.VIDEO_ID window_s ov max_end step hstep
          s0.START_S 0
      else []

theorem round3_zero : round3 0 = 0 := by
  simp [round3]

theorem round3_intCast (n : ℤ) : round3 ((n : ℤ) : ℚ) = (n : ℚ) := by
  unfold round3
  have h : ((n : ℚ) * 1000) = ((n * 1000 : ℤ) : ℚ) := by push_cast; ring
  rw [h, round_intCast]
  push_cast
  rw [mul_div_assoc]
  norm_num

theorem chunkLoop_overlap (segments : List Segment) (video_id : String)
    (window_s overlap_s : ℤ) (max_end : ℚ) (step : ℤ) (hstep : 0 < step)
    (chunk_start : ℚ) (chunk_index : ℕ) :
    ∀ j (hj : j < (chunkLoop segments video_id window_s overlap_s max_end
        step hstep chunk_start chunk_index).length),
      ((chunkLoop segments video_id window_s overlap_s max_end step hstep
          chunk_start chunk_index).get ⟨j, hj⟩).CHUNK_INDEX
        = chunk_index + j ∧
      ((chunkLoop segments video_id window_s overlap_s max_end step hstep
          chunk_start chunk_index).get ⟨j, hj⟩).OVERLAP_S
        = round3 (if chunk_index + j > 0 then (overlap_s : ℚ) else 0) := by
  by_cases h : chunk_start < max_end
  · by_cases hempty : ((segments.filter (fun seg =>
        decide (seg.START_S < chunk_start + (window_s : ℚ))
          && decide (chunk_start < seg.END_S))).map Segment.TEXT).isEmpty
        = true
    · have hout : chunkLoop segments video_id window_s overlap_s max_end
          step hstep chunk_start chunk_index
          = chunkLoop segments video_id window_s overlap_s max_end step
              hstep (chunk_start + (step : ℚ)) chunk_index := by
        rw [chunkLoop.eq_def]
        simp only [dif_pos h]
        rw [if_pos hempty]
      rw [hout]
      exact chunkLoop_overlap segments video_id window_s overlap_s max_end
        step hstep (chunk_start + (step : ℚ)) chunk_index
    · have hout : chunkLoop segments video_id window_s overlap_s max_end
          step hstep chunk_start chunk_index
          = ⟨video_id, chunk_index, round3 chunk_start,
              round3 (min (chunk_start + (window_s : ℚ)) max_end),
              String.intercalate " " ((segments.filter (fun seg =>
                decide (seg.START_S < chunk_start + (window_s : ℚ))
                  && decide (chunk_start < seg.END_S))).map Segment.TEXT),
              (segments.filter (fun seg =>
                decide (seg.START_S < chunk_start + (window_s : ℚ))
                  && decide (chunk_start < seg.END_S))).map
                    Segment.SEGMENT_INDEX,
              round3 (if chunk_index > 0 then (overlap_s : ℚ) else 0)⟩ ::
            chunkLoop segments video_id window_s overlap_s max_end step
              hstep (chunk_start + (step : ℚ)) (chunk_index + 1) := by
        rw [chunkLoop.eq_def]
        simp only [dif_pos h]
        rw [if_neg hempty]
      rw [hout]
      intro j hj
      match j, hj with
      | 0, _ => exact ⟨by simp, by simp⟩
      | j + 1, hj =>
          simp only [List.length_cons, Nat.add_lt_add_iff_right] at hj
          simp only [List.get_cons_succ]
          obtain ⟨h1, h2⟩ := chunkLoop_overlap segments video_id window_s
            overlap_s max_end step hstep (chunk_start + (step : ℚ))
            (chunk_index + 1) j hj
          have hidx : chunk_index + 1 + j = chunk_index + (j + 1) := by omega
          rw [hidx] at h1 h2
          exact ⟨h1, h2⟩
  · have hout : chunkLoop segments video_id window_s overlap_s max_end
        step hstep chunk_start chunk_index = [] := by
      rw [chunkLoop.eq_def]
      exact dif_neg h
    rw [hout]
    intro j hj
    simp at hj
termination_by (⌈(max_end - chunk_start) / (step : ℚ)⌉).toNat
decreasing_by
  all_goals
    have hstepQ : (0:ℚ) < (step:ℚ) := by exact_mod_cast hstep
    have hx : (0:ℚ) < (max_end - chunk_start) / (step:ℚ) :=
      div_pos (by linarith) hstepQ
    have hceil : 0 < ⌈(max_end - chunk_start) / (step:ℚ)⌉ :=
      Int.ceil_pos.mpr hx
    have heq : (max_end - (chunk_start + (step:ℚ))) / (step:ℚ)
        = (max_end - chunk_start) / (step:ℚ) - 1 := by
      field_simp
      ring
    rw [heq, Int.ceil_sub_one]
    omega

theorem chunkLoop_coverage (segments : List Segment) (video_id : String)
    (window_s overlap_s : ℤ) (max_end : ℚ) (step : ℤ) (hstep : 0 < step)
    (seg : Segment) (hmem : seg ∈ segments)
    (hdur : seg.START_S < seg.END_S)
    (hstepW : (step : ℚ) ≤ (window_s : ℚ))
    (hend : seg.END_S ≤ max_end)
    (chunk_start : ℚ) (chunk_index : ℕ)
    (hle : chunk_start ≤ seg.START_S) :
    ∃ c ∈ chunkLoop segments video_id window_s overlap_s max_end step hstep
        chunk_start chunk_index,
      seg.SEGMENT_INDEX ∈ c.SEGMENT_INDICES := by
  have hlt : chunk_start < max_end :=
    lt_of_le_of_lt hle (lt_of_lt_of_le hdur hend)
  by_cases hcase : seg.START_S < chunk_start + (window_s : ℚ)
  · have hfil : seg ∈ segments.filter (fun s =>
        decide (s.START_S < chunk_start + (window_s : ℚ))
          && decide (chunk_start < s.END_S)) := by
      rw [List.mem_filter]
      refine ⟨hmem, ?_⟩
      have h2 : chunk_start < seg.END_S := lt_of_le_of_lt hle hdur
      simp [hcase, h2]
    have hempty : ¬((segments.filter (fun s =>
        decide (s.START_S < chunk_start + (window_s : ℚ))
          && decide (chunk_start < s.END_S))).map Segment.TEXT).isEmpty
        = true := by
      have hm : seg.TEXT ∈ (segments.filter (fun s =>
          decide (s.START_S < chunk_start + (window_s : ℚ))
            && decide (chunk_start < s.END_S))).map Segment.TEXT :=
        List.mem_map_of_mem Segment.TEXT hfil
      intro hvac
      rw [List.isEmpty_iff] at hvac
      rw [hvac] at hm
      simp at hm
    have hout : chunkLoop segments video_id window_s overlap_s max_end
        step hstep chunk_start chunk_index
        = ⟨video_id, chunk_index, round3 chunk_start,
            round3 (min (chunk_start + (window_s : ℚ)) max_end),
            String.intercalate " " ((segments.filter (fun s =>
              decide (s.START_S < chunk_start + (window_s : ℚ))
                && decide (chunk_start < s.END_S))).map Segment.TEXT),
            (segments.filter (fun s =>
              decide (s.START_S < chunk_start + (window_s : ℚ))
                && decide (chunk_start < s.END_S))).map
                  Segment.SEGMENT_INDEX,
            round3 (if chunk_index > 0 then (overlap_s : ℚ) else 0)⟩ ::
          chunkLoop segments video_id window_s overlap_s max_end step
            hstep (chunk_start + (step : ℚ)) (chunk_index + 1) := by
      rw [chunkLoop.eq_def]
      simp only [dif_pos hlt]
      rw [if_neg hempty]
    rw [hout]
    refine ⟨_, List.mem_cons_self _ _, ?_⟩
    exact List.mem_map_of_mem Segment.SEGMENT_INDEX hfil
  · push_neg at hcase
    have hle2 : chunk_start + (step : ℚ) ≤ seg.START_S := by linarith
    by_cases hempty : ((segments.filter (fun s =>
        decide (s.START_S < chunk_start + (window_s : ℚ))
          && decide (chunk_start < s.END_S))).map Segment.TEXT).isEmpty
        = true
    · have hout : chunkLoop segments video_id window_s overlap_s max_end
          step hstep chunk_start chunk_index
          = chunkLoop segments video_id window_s overlap_s max_end step
              hstep (chunk_start + (step : ℚ)) chunk_index := by
        rw [chunkLoop.eq_def]
        simp only [dif_pos hlt]
        rw [if_pos hempty]
      rw [hout]
      exact chunkLoop_coverage segments video_id window_s overlap_s max_end
        step hstep seg hmem hdur hstepW hend (chunk_start + (step : ℚ))
        chunk_index hle2
    · have hout : chunkLoop segments video_id window_s overlap_s max_end
          step hstep chunk_start chunk_index
          = ⟨video_id, chunk_index, round3 chunk_start,
              round3 (min (chunk_start + (window_s : ℚ)) max_end),
              String.intercalate " " ((segments.filter (fun s =>
                decide (s.START_S < chunk_start + (window_s : ℚ))
                  && decide (chunk_start < s.END_S))).map Segment.TEXT),
              (segments.filter (fun s =>
                decide (s.START_S < chunk_start + (window_s : ℚ))
                  && decide (chunk_start < s.END_S))).map
                    Segment.SEGMENT_INDEX,
              round3 (if chunk_index > 0 then (overlap_s : ℚ) else 0)⟩ ::
            chunkLoop segments video_id window_s overlap_s max_end step
              hstep (chunk_start + (step : ℚ)) (chunk_index + 1) := by
        rw [chunkLoop.eq_def]
        simp only [dif_pos hlt]
        rw [if_neg hempty]
      rw [hout]
      obtain ⟨c, hc, hcm⟩ := chunkLoop_coverage segments video_id window_s
        overlap_s max_end step hstep seg hmem hdur hstepW hend
        (chunk_start + (step : ℚ)) (chunk_index + 1) hle2
      exact ⟨c, List.mem_cons_of_mem _ hc, hcm⟩
termination_by (⌈(max_end - chunk_start) / (step : ℚ)⌉).toNat
decreasing_by
  all_goals
    have hstepQ : (0:ℚ) < (step:ℚ) := by exact_mod_cast hstep
    have hx : (0:ℚ) < (max_end - chunk_start) / (step:ℚ) :=
      div_pos (by linarith) hstepQ
    have hceil : 0 < ⌈(max_end - chunk_start) / (step:ℚ)⌉ :=
      Int.ceil_pos.mpr hx
    have heq : (max_end - (chunk_start + (step:ℚ))) / (step:ℚ)
        = (max_end - chunk_start) / (step:ℚ) - 1 := by
      field_simp
      ring
    rw [heq, Int.ceil_sub_one]
    omega

theorem foldl_max_init_le (l : List ℚ) (a : ℚ) : a ≤ l.foldl max a := by
  induction l generalizing a with
  | nil => exact le_refl a
  | cons x t ih =>
      simp only [List.foldl_cons]
      exact le_trans (le_max_left a x) (ih (max a x))

theorem le_foldl_max_of_mem (l : List ℚ) :
    ∀ (a x : ℚ), x ∈ l → x ≤ l.foldl max a := by
  induction l with
  | nil =>
      intro a x hx
      simp at hx
  | cons y t ih =>
      intro a x hx
      simp only [List.foldl_cons]
      rcases List.mem_cons.mp hx with h1 | h2
      · subst h1
        exact le_trans (le_max_right a x) (foldl_max_init_le t (max a x))
      · exact ih (max a y) x h2

/-- C7 amended: for a positive window `W`, non-negative overlap `O < W`,
and a non-empty segment list whose segments all have positive duration and
whose first segment starts no later than any other, every segment's index
appears in at least one chunk's SEGMENT_INDICES; chunk indices are
consecutive from 0, the first chunk's recorded OVERLAP_S is 0 and every
subsequent chunk records exactly `O`; and whenever `O ≥ W` the fallback
uses step `W` and records overlap 0 on every chunk. -/
theorem chunking_coverage_overlap (s0 : Segment) (rest : List Segment)
    (W O : ℤ) (hW : 0 < W) (hO : 0 ≤ O) (hOW : O < W)
    (hdur : ∀ seg ∈ s0 :: rest, seg.START_S < seg.END_S)
    (hmin : ∀ seg ∈ s0 :: rest, s0.START_S ≤ seg.START_S) :
    (∀ seg ∈ s0 :: rest, ∃ c ∈ chunk_transcripts (s0 :: rest) W O,
        seg.SEGMENT_INDEX ∈ c.SEGMENT_INDICES) ∧
    (∀ j (hj : j < (chunk_transcripts (s0 :: rest) W O).length),
        ((chunk_transcripts (s0 :: rest) W O).get ⟨j, hj⟩).CHUNK_INDEX = j ∧
        ((chunk_transcripts (s0 :: rest) W O).get ⟨j, hj⟩).OVERLAP_S
          = if j = 0 then 0 else (O : ℚ)) ∧
    (∀ O₂ : ℤ, W ≤ O₂ → ∀ c ∈ chunk_transcripts (s0 :: rest) W O₂,
        c.OVERLAP_S = 0) := by
  have hstep0 : ¬(W - O ≤ 0) := by omega
  have hpos : (0:ℤ) < W - O := by omega
  have hout : chunk_transcripts (s0 :: rest) W O
      = chunkLoop (s0 :: rest) s0.VIDEO_ID W O
          ((rest.map Segment.END_S).foldl max s0.END_S) (W - O) hpos
          s0.START_S 0 := by
    simp only [chunk_transcripts, if_neg hstep0, dif_pos hpos]
  refine ⟨?_, ?_, ?_⟩
  · intro seg hseg
    rw [hout]
    have hend : seg.END_S ≤ (rest.map Segment.END_S).foldl max s0.END_S := by
      rcases List.mem_cons.mp hseg with h1 | h2
      · rw [h1]
        exact foldl_max_init_le _ _
      · exact le_foldl_max_of_mem _ _ _ (List.mem_map_of_mem Segment.END_S h2)
    have hstepW : ((W - O : ℤ) : ℚ) ≤ ((W : ℤ) : ℚ) :=
      Int.cast_le.mpr (by omega)
    exact chunkLoop_coverage (s0 :: rest) s0.VIDEO_ID W O _ (W - O) hpos seg
      hseg (hdur seg hseg) hstepW hend s0.START_S 0 (hmin seg hseg)
  · rw [hout]
    intro j hj
    obtain ⟨h1, h2⟩ := chunkLoop_overlap (s0 :: rest) s0.VIDEO_ID W O
      ((rest.map Segment.END_S).foldl max s0.END_S) (W - O) hpos
      s0.START_S 0 j hj
    rw [zero_add] at h1 h2
    refine ⟨h1, ?_⟩
    rw [h2]
    by_cases hj0 : j = 0
    · subst hj0
      simp [round3_zero]
    · have hjpos : j > 0 := Nat.pos_of_ne_zero hj0
      rw [if_pos hjpos, if_neg hj0]
      exact round3_intCast O
  · intro O₂ hO₂ c hc
    have hstep2 : (W - O₂ ≤ 0) := by omega
    have hout2 : chunk_transcripts (s0 :: rest) W O₂
        = chunkLoop (s0 :: rest) s0.VIDEO_ID W 0
            ((rest.map Segment.END_S).foldl max s0.END_S) W hW
            s0.START_S 0 := by
      simp only [chunk_transcripts, if_pos hstep2, dif_pos hW]
    rw [hout2] at hc
    obtain ⟨n, hn⟩ := List.mem_iff_get.mp hc
    obtain ⟨i, hi⟩ := n
    obtain ⟨h1, h2⟩ := chunkLoop_overlap (s0 :: rest) s0.VIDEO_ID W 0
      ((rest.map Segment.END_S).foldl max s0.END_S) W hW s0.START_S 0 i hi
    rw [hn] at h2
    rw [h2]
    split
    · simp [round3_zero]
    · simp [round3_zero]

/-- Counterexample to C7 as stated: with `O < W` and a non-empty list of
normalized segments, coverage can fail.  (a) A single zero-duration segment
(`START_S = END_S`, as `normalize_transcripts` produces for an entry with
duration 0) yields no chunks at all, so index 0 appears in no chunk;
(b) when a later segment starts before the first one (`min_start` is taken
from `segments[0]`, not the true minimum), index 1 appears in no chunk's
SEGMENT_INDICES; (c) with a non-positive window (`W = 0 > O = -1`) no
window ever contains a segment; (d) with a negative overlap (`O = -2`) the
step `W - O` exceeds the window and skips over index 1. -/
theorem chunking_coverage_cex :
    chunk_transcripts [⟨"v", 0, 0, 0, "a", "", "auto", "en"⟩] 60 10 = [] ∧
    (chunk_transcripts [⟨"v", 0, 100, 110, "t0", "", "auto", "en"⟩,
        ⟨"v", 1, 0, 10, "t1", "", "auto", "en"⟩] 60 10).map
          Chunk.SEGMENT_INDICES = [[0]] ∧
    chunk_transcripts [⟨"v", 0, 0, 1, "a", "", "auto", "en"⟩] 0 (-1) = [] ∧
    (chunk_transcripts [⟨"v", 0, 0, 1, "t0", "", "auto", "en"⟩,
        ⟨"v", 1, 2, 3, "t1", "", "auto", "en"⟩] 2 (-2)).map
          Chunk.SEGMENT_INDICES = [[0]] := by
  refine ⟨?_, ?_, ?_, ?_⟩
  · simp only [chunk_transcripts]
    norm_num
    rw [chunkLoop.eq_def]
    norm_num
  · simp only [chunk_transcripts]
    norm_num [List.foldl]
    rw [chunkLoop.eq_def]
    norm_num [List.filter]
    rw [chunkLoop.eq_def]
    norm_num
  · simp only [chunk_transcripts]
    norm_num
    rw [chunkLoop.eq_def]
    norm_num [List.filter]
    rw [chunkLoop.eq_def]
    norm_num
  · simp only [chunk_transcripts]
    norm_num [List.foldl]
    rw [chunkLoop.eq_def]
    norm_num [List.filter]
    rw [chunkLoop.eq_def]
    norm_num

/-- Witness for the amended C7 at `W = 60`, `O = 10` and two well-formed
segments: coverage, consecutive chunk indices with overlap `0` then `10`,
and the `O ≥ W` fallback recording overlap `0`. -/
theorem chunking_coverage_overlap_witness :
    (∀ seg ∈ [(⟨"v", 0, 0, 30, "hello", "", "auto", "en"⟩ : Segment),
        ⟨"v", 1, 30, 70, "world", "", "auto", "en"⟩],
      ∃ c ∈ chunk_transcripts
          [(⟨"v", 0, 0, 30, "hello", "", "auto", "en"⟩ : Segment),
           ⟨"v", 1, 30, 70, "world", "", "auto", "en"⟩] 60 10,
        seg.SEGMENT_INDEX ∈ c.SEGMENT_INDICES) ∧
    (∀ j (hj : j < (chunk_transcripts
        [(⟨"v", 0, 0, 30, "hello", "", "auto", "en"⟩ : Segment),
         ⟨"v", 1, 30, 70, "world", "", "auto", "en"⟩] 60 10).length),
      ((chunk_transcripts
          [(⟨"v", 0, 0, 30, "hello", "", "auto", "en"⟩ : Segment),
           ⟨"v", 1, 30, 70, "world", "", "auto", "en"⟩] 60 10).get
            ⟨j, hj⟩).CHUNK_INDEX = j ∧
      ((chunk_transcripts
          [(⟨"v", 0, 0, 30, "hello", "", "auto", "en"⟩ : Segment),
           ⟨"v", 1, 30, 70, "world", "", "auto", "en"⟩] 60 10).get
            ⟨j, hj⟩).OVERLAP_S = if j = 0 then 0 else ((10 : ℤ) : ℚ)) ∧
    (∀ O₂ : ℤ, (60 : ℤ) ≤ O₂ →
      ∀ c ∈ chunk_transcripts
          [(⟨"v", 0, 0, 30, "hello", "", "auto", "en"⟩ : Segment),
           ⟨"v", 1, 30, 70, "world", "", "auto", "en"⟩] 60 O₂,
        c.OVERLAP_S = 0) :=
  chunking_coverage_overlap
    ⟨"v", 0, 0, 30, "hello", "", "auto", "en"⟩
    [⟨"v", 1, 30, 70, "world", "", "auto", "en"⟩] 60 10
    (by decide) (by decide) (by decide) (by decide) (by decide)

/-!
## Transcript sub-pipeline (`run.py`, `_collect_and_process_transcript`,
lines 259-305)

The external collector either raises (`Except.error`) or returns a raw
transcript.  Events record which processing functions the run invokes; the
ledger is threaded through the `ckpt.mark` calls (persistence of `mark` is
modelled in the checkpoint section).
-/

/-- Observable actions of the transcript sub-pipeline. -/
inductive TEvent where
  | collect
  | normalize
  | writeSegments
  | chunk
  | writeChunks
deriving DecidableEq

/-- Result of one run of the transcript sub-pipeline. -/
structure TranscriptRunResult where
  events : List TEvent
  ckpt : LedgerData
  err : Option String
  chunksWritten : ℕ
deriving DecidableEq

/-- `_collect_and_process_transcript`: skipped when transcripts are
disabled; gated only on `transcript_chunk`; the collector is invoked before
any ledger check of `transcript_collect`; `transcript_collect` is marked
after collection, then empty transcripts return early; otherwise
normalization, segment write, chunking and chunk write follow, each marked
in order. -/
def transcriptPipelineRun (transcripts_enable : Bool)
    (video_id unit_key : String) (max_chars window_s overlap_s : ℤ)
    (ckpt : LedgerData) (collectRes : Except String RawTranscript) :
    TranscriptRunResult :=
  if ¬transcripts_enable then ⟨[], ckpt, none, 0⟩
  else if isDoneData ckpt unit_key "transcript_chunk" then ⟨[], ckpt, none, 0⟩
  else
    match collectRes with
    | .error e => ⟨[.collect], ckpt, some e, 0⟩
    | .ok raw =>
        let ckpt₁ := markData ckpt unit_key "transcript_collect" "DONE"
        if raw.entries = [] then ⟨[.collect], ckpt₁, none, 0⟩
        else
          let segments := normalize_transcripts raw video_id max_chars
          let ckpt₂ := markData ckpt₁ unit_key "transcript_normalize" "DONE"
          let chunks := chunk_transcripts segments window_s overlap_s
          let ckpt₃ := markData ckpt₂ unit_key "transcript_chunk" "DONE"
          ⟨[.collect, .normalize, .writeSegments, .chunk, .writeChunks],
            ckpt₃, none, chunks.length⟩

/-- Counterexample to C1: with the ledger marking `transcript_collect` DONE
but not `transcript_normalize` (nor `transcript_chunk`), re-running the
sub-pipeline re-invokes the external transcript collector — the only
checkpoint gate is `transcript_chunk`, so the claimed "without re-invoking
the external transcript collector" is false. -/
theorem transcript_resume_recollect_cex :
    isDoneData ⟨[("X", [("transcript_collect", "DONE")])]⟩
        "X" "transcript_collect" = true ∧
    isDoneData ⟨[("X", [("transcript_collect", "DONE")])]⟩
        "X" "transcript_normalize" = false ∧
    isDoneData ⟨[("X", [("transcript_collect", "DONE")])]⟩
        "X" "transcript_chunk" = false ∧
    TEvent.collect ∈ (transcriptPipelineRun true "v" "X" 100 60 10
        ⟨[("X", [("transcript_collect", "DONE")])]⟩
        (.ok ⟨[⟨"hi", 0, 1⟩], "auto", "en"⟩)).events := by
  refine ⟨by decide, by decide, by decide, ?_⟩
  simp [transcriptPipelineRun, isDoneData, ledgerStatus, dictGet]

/-- C1 amended: when `transcript_chunk` is not DONE and the collector
returns a non-empty transcript, resuming re-runs the whole sub-pipeline —
collector, normalization and chunking are all re-invoked in order (the
sub-pipeline is gated only on `transcript_chunk`; a DONE
`transcript_collect` does not suppress re-collection) and all three stage
marks end up DONE. -/
theorem transcript_resume_reinvokes_all (video_id unit_key : String)
    (max_chars window_s overlap_s : ℤ) (ckpt : LedgerData)
    (raw : RawTranscript)
    (hgate : isDoneData ckpt unit_key "transcript_chunk" = false)
    (hentries : raw.entries ≠ []) :
    (transcriptPipelineRun true video_id unit_key max_chars window_s
        overlap_s ckpt (.ok raw)).events
      = [.collect, .normalize, .writeSegments, .chunk, .writeChunks] ∧
    isDoneData (transcriptPipelineRun true video_id unit_key max_chars
        window_s overlap_s ckpt (.ok raw)).ckpt unit_key "transcript_collect"
      = true ∧
    isDoneData (transcriptPipelineRun true video_id unit_key max_chars
        window_s overlap_s ckpt (.ok raw)).ckpt unit_key
        "transcript_normalize" = true ∧
    isDoneData (transcriptPipelineRun true video_id unit_key max_chars
        window_s overlap_s ckpt (.ok raw)).ckpt unit_key "transcript_chunk"
      = true := by
  have hunfold : transcriptPipelineRun true video_id unit_key max_chars
      window_s overlap_s ckpt (.ok raw)
      = ⟨[.collect, .normalize, .writeSegments, .chunk, .writeChunks],
          markData (markData (markData ckpt unit_key "transcript_collect"
            "DONE") unit_key "transcript_normalize" "DONE") unit_key
            "transcript_chunk" "DONE", none,
          (chunk_transcripts (normalize_transcripts raw video_id max_chars)
            window_s overlap_s).length⟩ := by
    simp [transcriptPipelineRun, hgate, hentries]
  rw [hunfold]
  refine ⟨rfl, ?_, ?_, ?_⟩
  · simp only [isDoneData]
    rw [ledgerStatus_markData_other _ _ _ _ _ _
        (fun hh => absurd hh.2 (by decide)),
      ledgerStatus_markData_other _ _ _ _ _ _
        (fun hh => absurd hh.2 (by decide)),
      ledgerStatus_markData_self]
    decide
  · simp only [isDoneData]
    rw [ledgerStatus_markData_other _ _ _ _ _ _
        (fun hh => absurd hh.2 (by decide)),
      ledgerStatus_markData_self]
    decide
  · simp only [isDoneData]
    rw [ledgerStatus_markData_self]
    decide

/-- Witness for the amended C1: a ledger with `transcript_collect` DONE
(only) re-invokes everything and completes all three marks. -/
theorem transcript_resume_reinvokes_all_witness :
    (transcriptPipelineRun true "v" "X" 100 60 10
        ⟨[("X", [("transcript_collect", "DONE")])]⟩
        (.ok ⟨[⟨"hi", 0, 1⟩], "auto", "en"⟩)).events
      = [.collect, .normalize, .writeSegments, .chunk, .writeChunks] ∧
    isDoneData (transcriptPipelineRun true "v" "X" 100 60 10
        ⟨[("X", [("transcript_collect", "DONE")])]⟩
        (.ok ⟨[⟨"hi", 0, 1⟩], "auto", "en"⟩)).ckpt "X" "transcript_collect"
      = true ∧
    isDoneData (transcriptPipelineRun true "v" "X" 100 60 10
        ⟨[("X", [("transcript_collect", "DONE")])]⟩
        (.ok ⟨[⟨"hi", 0, 1⟩], "auto", "en"⟩)).ckpt "X" "transcript_normalize"
      = true ∧
    isDoneData (transcriptPipelineRun true "v" "X" 100 60 10
        ⟨[("X", [("transcript_collect", "DONE")])]⟩
        (.ok ⟨[⟨"hi", 0, 1⟩], "auto", "en"⟩)).ckpt "X" "transcript_chunk"
      = true :=
  transcript_resume_reinvokes_all "v" "X" 100 60 10
    ⟨[("X", [("transcript_collect", "DONE")])]⟩
    ⟨[⟨"hi", 0, 1⟩], "auto", "en"⟩ (by decide) (by decide)

/-!
## Per-unit driver (`run.py`, `_process_single_video`, lines 223-256)

The driver iterates the two collection sub-pipelines
`[("transcript", ...), ("comments", ...)]` in order; each stage function
takes the current ledger and returns the updated ledger together with the
exception it raised, if any.  An exception is recorded (failure record,
run-result failure entry, FAILED mark) and, under the `abort` policy,
re-raised — otherwise the loop continues.  After the loop, `_enrich_video`
is invoked unconditionally.
-/

/-- Accumulated observable outcome of the per-unit stage loop. -/
structure StageLoopResult where
  failures : List (String × String × String)
  ckpt : LedgerData
  raised : Option String
  attempted : List String
deriving DecidableEq

/-- The `for stage_name, stage_fn in [...]` loop of
`_process_single_video`, with its `try/except` body. -/
def processStages (policy video_id unit_key : String) :
    List (String × (LedgerData → LedgerData × Option String)) →
    LedgerData → StageLoopResult
  | [], ckpt => ⟨[], ckpt, none, []⟩
  | (stage_name, stage_fn) :: rest, ckpt =>
      match stage_fn ckpt with
      | (ckpt₁, none) =>
          let next := processStages policy video_id unit_key rest ckpt₁
          ⟨next.failures, next.ckpt, next.raised, stage_name :: next.attempted⟩
      | (ckpt₁, some e) =>
          let ckptF := markData ckpt₁ unit_key stage_name "FAILED"
          if policy = "abort" then
            ⟨[(stage_name, video_id, e)], ckptF, some e, [stage_name]⟩
          else
            let next := processStages policy video_id unit_key rest ckptF
            ⟨(stage_name, video_id, e) :: next.failures, next.ckpt,
              next.raised, stage_name :: next.attempted⟩

/-- Outcome of `_process_single_video` for one unit. -/
structure UnitRunResult where
  failures : List (String × String × String)
  ckpt : LedgerData
  raised : Option String
  enrichInvoked : Bool
  attempted : List String
deriving DecidableEq

/-- `_process_single_video`: run the collection stage loop, then invoke
`_enrich_video` — which is reached exactly when no abort exception
propagated out of the loop. -/
def processSingleVideo (policy video_id unit_key : String)
    (stages : List (String × (LedgerData → LedgerData × Option String)))
    (ckpt : LedgerData) : UnitRunResult :=
  let r := processStages policy video_id unit_key stages ckpt
  ⟨r.failures, r.ckpt, r.raised, r.raised.isNone, r.attempted⟩

theorem processStages_skip_raised (video_id unit_key : String)
    (stages : List (String × (LedgerData → LedgerData × Option String))) :
    ∀ ckpt, (processStages "skip" video_id unit_key stages ckpt).raised
      = none := by
  induction stages with
  | nil => intro ckpt; rfl
  | cons hd rest ih =>
      intro ckpt
      obtain ⟨stage_name, stage_fn⟩ := hd
      simp only [processStages]
      rcases hfn : stage_fn ckpt with ⟨ckpt₁, eo⟩
      cases eo with
      | none => simp [hfn, ih]
      | some e => simp [hfn, ih]

theorem processStages_skip_attempted (video_id unit_key : String)
    (stages : List (String × (LedgerData → LedgerData × Option String))) :
    ∀ ckpt, (processStages "skip" video_id unit_key stages ckpt).attempted
      = stages.map Prod.fst := by
  induction stages with
  | nil => intro ckpt; rfl
  | cons hd rest ih =>
      intro ckpt
      obtain ⟨stage_name, stage_fn⟩ := hd
      simp only [processStages]
      rcases hfn : stage_fn ckpt with ⟨ckpt₁, eo⟩
      cases eo with
      | none => simp [hfn, ih]
      | some e => simp [hfn, ih]

/-- C2: under failure policy `skip`, a raising collection sub-pipeline
(transcript or comments) has its failure recorded in the run result, both
collection stages are still attempted, no exception propagates, and
enrichment is still invoked on whatever was already persisted; moreover the
raising sub-pipeline's own remaining stages are abandoned — a transcript
collector exception leaves the sub-pipeline after the collect step only
(no normalize, no chunk). -/
theorem collection_failure_skip_policy (video_id unit_key : String)
    (tfn cfn : LedgerData → LedgerData × Option String) (ckpt : LedgerData) :
    (∀ e ckpt₁, tfn ckpt = (ckpt₁, some e) →
      ("transcript", video_id, e) ∈ (processSingleVideo "skip" video_id
        unit_key [("transcript", tfn), ("comments", cfn)] ckpt).failures) ∧
    (∀ e ckpt₁ e₂ ckpt₂, tfn ckpt = (ckpt₁, some e) →
      cfn (markData ckpt₁ unit_key "transcript" "FAILED") = (ckpt₂, some e₂) →
      ("comments", video_id, e₂) ∈ (processSingleVideo "skip" video_id
        unit_key [("transcript", tfn), ("comments", cfn)] ckpt).failures) ∧
    (processSingleVideo "skip" video_id unit_key
        [("transcript", tfn), ("comments", cfn)] ckpt).enrichInvoked
      = true ∧
    (processSingleVideo "skip" video_id unit_key
        [("transcript", tfn), ("comments", cfn)] ckpt).raised = none ∧
    (processSingleVideo "skip" video_id unit_key
        [("transcript", tfn), ("comments", cfn)] ckpt).attempted
      = ["transcript", "comments"] ∧
    (∀ (max_chars window_s overlap_s : ℤ) (e : String),
      isDoneData ckpt unit_key "transcript_chunk" = false →
      (transcriptPipelineRun true video_id unit_key max_chars window_s
        overlap_s ckpt (.error e)).events = [TEvent.collect]) := by
  refine ⟨?_, ?_, ?_, ?_, ?_, ?_⟩
  · intro e ckpt₁ ht
    simp [processSingleVideo, processStages, ht]
  · intro e ckpt₁ e₂ ckpt₂ ht hc
    simp [processSingleVideo, processStages, ht, hc]
  · simp [processSingleVideo, processStages_skip_raised]
  · simp [processSingleVideo, processStages_skip_raised]
  · simp [processSingleVideo, processStages_skip_attempted]
  · intro max_chars window_s overlap_s e hgate
    simp [transcriptPipelineRun, hgate]

/-- Witness for C2: both sub-pipelines raise under `skip`; both failures
are recorded, both stages were attempted, enrichment still runs, and the
failing transcript sub-pipeline stopped after the collect step. -/
theorem collection_failure_skip_policy_witness :
    ("transcript", "v", "boom") ∈ (processSingleVideo "skip" "v" "X"
        [("transcript", fun ck => (ck, some "boom")),
         ("comments", fun ck => (ck, some "boom2"))] ⟨[]⟩).failures ∧
    ("comments", "v", "boom2") ∈ (processSingleVideo "skip" "v" "X"
        [("transcript", fun ck => (ck, some "boom")),
         ("comments", fun ck => (ck, some "boom2"))] ⟨[]⟩).failures ∧
    (processSingleVideo "skip" "v" "X"
        [("transcript", fun ck => (ck, some "boom")),
         ("comments", fun ck => (ck, some "boom2"))] ⟨[]⟩).enrichInvoked
      = true ∧
    (transcriptPipelineRun true "v" "X" 100 60 10 ⟨[]⟩
        (.error "boom")).events = [TEvent.collect] := by
  have h := collection_failure_skip_policy "v" "X"
    (fun ck => (ck, some "boom")) (fun ck => (ck, some "boom2")) ⟨[]⟩
  exact ⟨h.1 "boom" ⟨[]⟩ rfl, h.2.1 "boom" ⟨[]⟩ "boom2" _ rfl rfl,
    h.2.2.1, h.2.2.2.2.2 100 60 10 "boom" (by decide)⟩

/-!
## Run coordinator prelude (`run.py`, `run_all`, lines 161-199)

Resume validation (lines 164-169): `re.search(r"[/\\]|^\.\.", run_id) or
".." in run_id` — since the substring test subsumes the leading-dot-dot
alternative, the identifier is rejected exactly when it contains a slash, a
backslash, or `".."` anywhere.  On resume no existence check is performed
explicitly: if the run directory is absent, `(out_dir / "logs").mkdir`
(line 183) raises `FileNotFoundError`; the manifest (line 190) is then
written unconditionally, overwriting any previous one, whether or not it
existed.  Preflight (line 176) runs only for new runs.
-/

/-- Errors that abort `run_all` before any unit is processed. -/
inductive RunError where
  | invalidRunId
  | missingRunDir
  | preflightFailed
deriving DecidableEq

/-- What the prelude did before unit processing starts. -/
structure PreludeResult where
  preflightRan : Bool
  manifestWritten : Bool
deriving DecidableEq

/-- The resume-identifier validation of `run_all`: the identifier is
rejected when it contains the character `/` or `\\`, or the substring
`".."`. -/
def invalidResumeId (run_id : String) : Bool :=
  run_id.toList.contains '/' || run_id.toList.contains '\\' ||
    decide ("..".toList <:+: run_id.toList)

/-- The prelude of `run_all` up to the start of unit processing, over the
relevant filesystem facts (run directory exists, manifest exists) and the
preflight verdict. -/
def runAllPrelude (resume_run_id : Option String)
    (runDirExists manifestExists preflightOk : Bool) :
    Except RunError PreludeResult :=
  match resume_run_id with
  | some rid =>
      if invalidResumeId rid then .error .invalidRunId
      else if !runDirExists then .error .missingRunDir
      else .ok ⟨false, true⟩
  | none =>
      if !preflightOk then .error .preflightFailed
      else .ok ⟨true, true⟩

/-- Counterexample to C4: resuming `"run1"` with an existing run directory
but no manifest succeeds (and rewrites the manifest) instead of being
rejected — `run_all` does not require the manifest to already exist.  (The
pre-existence check lives in the CLI layer, `cli.py` lines 124-133, not in
`run_all`.) -/
theorem run_all_resume_cex :
    runAllPrelude (some "run1") true false true
      = .ok ⟨false, true⟩ := by
  have h : invalidResumeId "run1" = false := by decide
  simp [runAllPrelude, h]

/-- C4 amended: `run_all` raises on a resume identifier containing a path
separator or `".."`; with a valid identifier the run directory must exist
(its absence raises before the running state); the manifest is NOT required
to pre-exist — every successful resume skips preflight and rewrites the
manifest unconditionally. -/
theorem run_all_resume_validation (rid : String)
    (runDirExists manifestExists preflightOk : Bool) :
    (invalidResumeId rid = true →
      runAllPrelude (some rid) runDirExists manifestExists preflightOk
        = .error .invalidRunId) ∧
    ((rid.toList.contains '/' = true ∨ rid.toList.contains '\\' = true ∨
        "..".toList <:+: rid.toList) →
      invalidResumeId rid = true) ∧
    (invalidResumeId rid = false → runDirExists = false →
      runAllPrelude (some rid) runDirExists manifestExists preflightOk
        = .error .missingRunDir) ∧
    (∀ r : PreludeResult,
      runAllPrelude (some rid) runDirExists manifestExists preflightOk
        = .ok r →
      r.preflightRan = false ∧ r.manifestWritten = true) := by
  refine ⟨?_, ?_, ?_, ?_⟩
  · intro h
    simp [runAllPrelude, h]
  · intro h
    simp only [invalidResumeId, Bool.or_eq_true, decide_eq_true_eq]
    rcases h with h1 | h1 | h1
    · exact Or.inl (Or.inl h1)
    · exact Or.inl (Or.inr h1)
    · exact Or.inr h1
  · intro h1 h2
    simp [runAllPrelude, h1, h2]
  · intro r hr
    simp only [runAllPrelude] at hr
    by_cases h1 : invalidResumeId rid = true
    · simp [h1] at hr
    · simp only [Bool.not_eq_true] at h1
      by_cases h2 : runDirExists
      · simp [h1, h2] at hr
        rw [← hr]
        exact ⟨rfl, rfl⟩
      · simp [h1, h2] at hr

/-- Witness for the amended C4: a path-traversal identifier is rejected,
and a plain identifier resumes with an existing run directory but a missing
manifest — preflight skipped, manifest rewritten. -/
theorem run_all_resume_validation_witness :
    runAllPrelude (some "../escape") true true true
      = .error .invalidRunId ∧
    runAllPrelude (some "20260101T000000Z") true false true
      = .ok ⟨false, true⟩ ∧
    (⟨false, true⟩ : PreludeResult).preflightRan = false ∧
    (⟨false, true⟩ : PreludeResult).manifestWritten = true := by
  have hok : runAllPrelude (some "20260101T000000Z") true false true
      = .ok ⟨false, true⟩ := by
    have h : invalidResumeId "20260101T000000Z" = false := by decide
    simp [runAllPrelude, h]
  have happ := (run_all_resume_validation "20260101T000000Z" true false
    true).2.2.2 ⟨false, true⟩ hok
  exact ⟨(run_all_resume_validation "../escape" true true true).1 (by decide),
    hok, happ.1, happ.2⟩
